import Mathlib

/-!
Shallow embedding of `src/ecs/component/instance.rs` (grid-instance
generation and raw-matrix encoding).

Modelling choices:
* Machine floats that the generator manipulates (grid indices cast to
  `f32`, the displacement components, subtraction, and the exact
  `is_zero` comparison) are modelled by exact rationals `ℚ`; every
  float value the grid arithmetic produces on the spec's domain is a
  small dyadic rational, so `ℚ` is a faithful exact model and keeps
  the branch condition decidable.
* The rotation quaternion and the encoded matrix involve `sqrt`,
  `sin` and `cos`, so they live over `ℝ`; rational positions are cast
  into `ℝ` where the source calls `normalize` / `from_axis_angle`.
* `wgpu` buffer creation is external; the buffer *contents* that the
  component hands to it (`bytemuck::cast_slice` of the `InstanceRaw`
  vector) are modelled as the flat column-major float sequence, with
  4 bytes per `f32`.
* A second, refinement-level scalar type `F32` models IEEE-754 binary32
  arithmetic exactly (canonical significand/exponent values, round to
  nearest even, gradual underflow, overflow to ±infinity). It is used
  where the exact model and the float program part ways: rounding can
  collapse two distinct grid positions onto the same float value, and
  squared-magnitude overflow makes `normalize` return the zero vector,
  so the generator's unit-axis/unit-quaternion and distinct-position
  properties hold of the exact model but not of the f32 program.
-/

namespace WAF

/-- 3-component vector, modelling `cgmath::Vector3`. -/
structure Vec3 (α : Type) where
  x : α
  y : α
  z : α
deriving DecidableEq, Repr

/-- Componentwise subtraction, modelling `cgmath`'s `Sub` for `Vector3`. -/
instance {α : Type} [Sub α] : Sub (Vec3 α) where
  sub a b := ⟨a.x - b.x, a.y - b.y, a.z - b.z⟩

theorem Vec3.sub_def {α : Type} [Sub α] (a b : Vec3 α) :
    a - b = ⟨a.x - b.x, a.y - b.y, a.z - b.z⟩ := rfl

/-- `cgmath::Vector3::unit_z()`. -/
def Vec3.unit_z : Vec3 ℝ := ⟨0, 0, 1⟩

/-- Cast an exact (rational-valued) float vector into the reals. -/
def Vec3.toR (v : Vec3 ℚ) : Vec3 ℝ := ⟨(v.x : ℝ), (v.y : ℝ), (v.z : ℝ)⟩

/-- `cgmath` dot product `Vector3::dot`. -/
def Vec3.dot (a b : Vec3 ℝ) : ℝ := a.x * b.x + a.y * b.y + a.z * b.z

/-- `cgmath` `InnerSpace::magnitude` = `sqrt(self.dot(self))`.
Exact-real idealization: the f32 dot product can overflow to infinity
or underflow to zero at finite representable positions; the `F32`
refinement below captures that. -/
noncomputable def Vec3.magnitude (v : Vec3 ℝ) : ℝ := Real.sqrt (v.dot v)

/-- Scalar multiple, modelling `Vector3 * scalar`. -/
def Vec3.smul (r : ℝ) (v : Vec3 ℝ) : Vec3 ℝ := ⟨r * v.x, r * v.y, r * v.z⟩

/-- `cgmath` `InnerSpace::normalize` = `self * (1 / magnitude)`.
Exact-real idealization: when the f32 squared magnitude overflows,
`1 / inf = 0` and the f32 result is the zero vector (see
`normalize32`). -/
noncomputable def Vec3.normalize (v : Vec3 ℝ) : Vec3 ℝ :=
  Vec3.smul (1 / v.magnitude) v

/-- `cgmath::Quaternion` in scalar+vector form (`s`, `v`). -/
structure Quaternion where
  s : ℝ
  v : Vec3 ℝ

/-- Degrees to radians (`Rad::from(Deg(d))` = `d * π / 180`). -/
noncomputable def degToRad (d : ℚ) : ℝ := (d : ℝ) * Real.pi / 180

/-- `cgmath::Quaternion::from_axis_angle(axis, Deg(d))`:
`(sin, cos)` of half the angle in radians, quaternion `(cos, axis * sin)`. -/
noncomputable def Quaternion.fromAxisAngle (axis : Vec3 ℝ) (d : ℚ) : Quaternion :=
  ⟨Real.cos (degToRad d / 2), Vec3.smul (Real.sin (degToRad d / 2)) axis⟩

/-- One grid-cell transform, modelling `Instance`. -/
structure Instance where
  position : Vec3 ℚ
  rotation : Quaternion

/-- `SINGLE_INSTANCE_DISPLACEMENT = Vector3::new(0.0, 0.0, 0.0)`. -/
def SINGLE_INSTANCE_DISPLACEMENT : Vec3 ℚ := ⟨0, 0, 0⟩

/-- `DEFAULT_INSTANCES_PER_ROW = 10`. -/
def DEFAULT_INSTANCES_PER_ROW : ℕ := 10

/-- `FANCY_MULTI_INSTANCE_DISPLACEMENT =
Vector3::new(DEFAULT_INSTANCES_PER_ROW as f32 * 0.5, 0.0,
DEFAULT_INSTANCES_PER_ROW as f32 * 0.5)`. -/
def FANCY_MULTI_INSTANCE_DISPLACEMENT : Vec3 ℚ :=
  ⟨(DEFAULT_INSTANCES_PER_ROW : ℚ) * 0.5, 0, (DEFAULT_INSTANCES_PER_ROW : ℚ) * 0.5⟩

/-- `InstanceComponent::create_instances`: for `z` in `0..n` (outer) and
`x` in `0..n` (inner), position `(x, 0, z) - displacement`; rotation is
the 0° quaternion about `unit_z` when the position `is_zero()`, else the
45° quaternion about `position.normalize()`.
Position arithmetic is modelled exactly; the program's f32 subtraction
rounds, which can merge distinct cells (see `position32`). -/
noncomputable def create_instances (num_instances_per_row : ℕ)
    (instance_displacement : Vec3 ℚ) : List Instance :=
  (List.range num_instances_per_row).flatMap fun z =>
    (List.range num_instances_per_row).map fun x =>
      let position : Vec3 ℚ := ⟨(x : ℚ), 0, (z : ℚ)⟩ - instance_displacement
      let rotation : Quaternion :=
        if position = ⟨0, 0, 0⟩ then
          Quaternion.fromAxisAngle Vec3.unit_z 0
        else
          Quaternion.fromAxisAngle (Vec3.normalize position.toR) 45
      ⟨position, rotation⟩

/-- The element `create_instances` builds for outer index `z`, inner
index `x` (same body as the closure in `create_instances`). -/
noncomputable def instanceAt (instance_displacement : Vec3 ℚ) (z x : ℕ) : Instance :=
  let position : Vec3 ℚ := ⟨(x : ℚ), 0, (z : ℚ)⟩ - instance_displacement
  let rotation : Quaternion :=
    if position = ⟨0, 0, 0⟩ then
      Quaternion.fromAxisAngle Vec3.unit_z 0
    else
      Quaternion.fromAxisAngle (Vec3.normalize position.toR) 45
  ⟨position, rotation⟩

theorem create_instances_eq (n : ℕ) (d : Vec3 ℚ) :
    create_instances n d =
      (List.range n).flatMap fun z => (List.range n).map fun x => instanceAt d z x := rfl

/-- `InstanceComponent::default` constructs with
`(0, SINGLE_INSTANCE_DISPLACEMENT)`; its instance list. -/
noncomputable def default_instances : List Instance :=
  create_instances 0 SINGLE_INSTANCE_DISPLACEMENT

/-- 4-component column vector, modelling `cgmath::Vector4`. -/
structure Vec4 where
  x : ℝ
  y : ℝ
  z : ℝ
  w : ℝ

/-- Column-major 4×4 matrix, modelling `cgmath::Matrix4` (stored as four
columns, as `Matrix4::new` receives them and as `[[f32; 4]; 4]` lays
them out). -/
structure Mat4 where
  c0 : Vec4
  c1 : Vec4
  c2 : Vec4
  c3 : Vec4

/-- `cgmath::Matrix4::from_translation(v)`: identity columns with the
translation in the fourth column. -/
def Mat4.from_translation (v : Vec3 ℝ) : Mat4 :=
  ⟨⟨1, 0, 0, 0⟩, ⟨0, 1, 0, 0⟩, ⟨0, 0, 1, 0⟩, ⟨v.x, v.y, v.z, 1⟩⟩

/-- `cgmath`'s `From<Quaternion> for Matrix4` conversion, with the same
intermediate products (`x2 = v.x + v.x`, `xx2 = x2 * v.x`, ...). -/
def Mat4.fromQuat (q : Quaternion) : Mat4 :=
  let x2 := q.v.x + q.v.x
  let y2 := q.v.y + q.v.y
  let z2 := q.v.z + q.v.z
  let xx2 := x2 * q.v.x
  let xy2 := x2 * q.v.y
  let xz2 := x2 * q.v.z
  let yy2 := y2 * q.v.y
  let yz2 := y2 * q.v.z
  let zz2 := z2 * q.v.z
  let sy2 := y2 * q.s
  let sz2 := z2 * q.s
  let sx2 := x2 * q.s
  ⟨⟨1 - yy2 - zz2, xy2 + sz2, xz2 - sy2, 0⟩,
   ⟨xy2 - sz2, 1 - xx2 - zz2, yz2 + sx2, 0⟩,
   ⟨xz2 + sy2, yz2 - sx2, 1 - xx2 - yy2, 0⟩,
   ⟨0, 0, 0, 1⟩⟩

/-- `Matrix4 * Vector4` (linear combination of the columns). -/
def Mat4.mulVec (m : Mat4) (v : Vec4) : Vec4 :=
  ⟨m.c0.x * v.x + m.c1.x * v.y + m.c2.x * v.z + m.c3.x * v.w,
   m.c0.y * v.x + m.c1.y * v.y + m.c2.y * v.z + m.c3.y * v.w,
   m.c0.z * v.x + m.c1.z * v.y + m.c2.z * v.z + m.c3.z * v.w,
   m.c0.w * v.x + m.c1.w * v.y + m.c2.w * v.z + m.c3.w * v.w⟩

/-- `Matrix4 * Matrix4`: each column of the product is the left matrix
applied to the corresponding column of the right matrix. -/
def Mat4.mul (a b : Mat4) : Mat4 :=
  ⟨a.mulVec b.c0, a.mulVec b.c1, a.mulVec b.c2, a.mulVec b.c3⟩

/-- `InstanceRaw`: the `#[repr(C)]` struct holding one
`model: [[f32; 4]; 4]`. -/
structure InstanceRaw where
  model : Mat4

/-- `Instance::to_raw`:
`Matrix4::from_translation(position) * Matrix4::from(rotation)`. -/
noncomputable def Instance.to_raw (i : Instance) : InstanceRaw :=
  ⟨Mat4.mul (Mat4.from_translation i.position.toR) (Mat4.fromQuat i.rotation)⟩

/-- The 16 floats of an `InstanceRaw` in memory order: `#[repr(C)]`
`[[f32; 4]; 4]` is the four columns in order, each column its four
components in order (column-major, no padding). -/
def InstanceRaw.floats (r : InstanceRaw) : List ℝ :=
  [r.model.c0.x, r.model.c0.y, r.model.c0.z, r.model.c0.w,
   r.model.c1.x, r.model.c1.y, r.model.c1.z, r.model.c1.w,
   r.model.c2.x, r.model.c2.y, r.model.c2.z, r.model.c2.w,
   r.model.c3.x, r.model.c3.y, r.model.c3.z, r.model.c3.w]

/-- Size of one `f32` in bytes. -/
def FLOAT_BYTES : ℕ := 4

/-- Byte size of one encoded `InstanceRaw` (`mem::size_of`, no padding:
16 contiguous `f32`s). -/
def InstanceRaw.byteSize (r : InstanceRaw) : ℕ := FLOAT_BYTES * r.floats.length

/-- The float sequence of the buffer contents that
`InstanceComponent::create_instance_buffer` hands to the device:
`bytemuck::cast_slice` of `instances.iter().map(Instance::to_raw)`. -/
noncomputable def create_instance_buffer_floats (instances : List Instance) : List ℝ :=
  (instances.map Instance.to_raw).flatMap InstanceRaw.floats

/-- Byte length of the buffer contents. -/
noncomputable def create_instance_buffer_byteLen (instances : List Instance) : ℕ :=
  FLOAT_BYTES * (create_instance_buffer_floats instances).length

/-- `2^k` as an integer (kernel-friendly via `Nat.pow`). -/
def pow2 (k : ℕ) : ℤ := ((2 ^ k : ℕ) : ℤ)

/-- IEEE-754 binary32 value. A finite float is stored canonically as
`m * 2^t`: normal numbers have `2^23 ≤ |m| < 2^24` and
`−149 ≤ t ≤ 104` (`t` = exponent − 23), subnormals have `t = −149` and
`|m| < 2^23`, zero is `finite 0 0`; this makes the representation of
each value unique, so structural equality is IEEE `==` (the sign of
zero is not tracked; no operation in the traced programs produces NaN
or distinguishes `−0.0`). -/
inductive F32 where
  | finite (m : ℤ) (t : ℤ)
  | inf
  | neginf
  | nan
deriving DecidableEq, Repr

/-- IEEE negation (exact). -/
def F32.negate : F32 → F32
  | finite m t => finite (-m) t
  | inf => neginf
  | neginf => inf
  | nan => nan

/-- Assemble a canonical finite float from a rounded significand
`0 ≤ m ≤ 2^24` at grid exponent `t`: renormalize the `m = 2^24` carry
and overflow to infinity past the largest finite exponent. -/
def mkFinite (m t : ℤ) : F32 :=
  if m = 0 then F32.finite 0 0
  else if m = pow2 24 then
    (if 104 < t + 1 then F32.inf else F32.finite (pow2 23) (t + 1))
  else if 104 < t then F32.inf
  else F32.finite m t

/-- Round the positive fraction `P / Q` to the nearest integer, ties to
even (`P, Q > 0`). -/
def rndHalfEvenPos (P Q : ℤ) : ℤ :=
  let f := P / Q
  let r := P % Q
  if 2 * r < Q then f
  else if Q < 2 * r then f + 1
  else if f % 2 = 0 then f else f + 1

/-- Binade exponent of the positive fraction `p / q`: the largest
`e ∈ [−126, 127]` with `2^e ≤ p / q`, and `−126` below that range
(subnormal / gradual underflow regime). -/
def f32expF (p q : ℤ) : ℤ :=
  (List.range 254).foldl
    (fun acc k =>
      let e : ℤ := (k : ℤ) - 126
      if (if 0 ≤ e then q * pow2 e.toNat ≤ p else q ≤ p * pow2 (-e).toNat)
      then e else acc)
    (-126)

/-- Round the positive exact value `p / q` to binary32 (round to
nearest, ties to even): values whose rounding reaches `2^128` become
infinity, the grid spacing is `2^(e−23)` floored at the subnormal
spacing `2^(−149)`. -/
def roundFracPos (p q : ℤ) : F32 :=
  if q * pow2 128 ≤ p then F32.inf
  else
    let e := f32expF p q
    let t := e - 23
    let P := if 0 ≤ t then p else p * pow2 (-t).toNat
    let Q := if 0 ≤ t then q * pow2 t.toNat else q
    mkFinite (rndHalfEvenPos P Q) t

/-- Round the exact value `p / q` (`q > 0`) to binary32. -/
def roundFrac (p q : ℤ) : F32 :=
  if p = 0 then F32.finite 0 0
  else if p < 0 then (roundFracPos (-p) q).negate
  else roundFracPos p q

/-- The `u32 as f32` cast (round to nearest even). -/
def F32.ofNat (n : ℕ) : F32 := roundFrac (n : ℤ) 1

/-- The f32 value `1.0` in canonical form. -/
def F32.one : F32 := F32.finite (pow2 23) (-23)

/-- Numerator of the exact value `m * 2^t` as a fraction. -/
def fracNum (m t : ℤ) : ℤ := if 0 ≤ t then m * pow2 t.toNat else m

/-- Denominator of the exact value `m * 2^t` as a fraction. -/
def fracDen (t : ℤ) : ℤ := if 0 ≤ t then 1 else pow2 (-t).toNat

/-- IEEE binary32 subtraction: round the exact difference; standard
special cases for infinities and NaN. -/
def F32.sub : F32 → F32 → F32
  | nan, _ => nan
  | _, nan => nan
  | finite m1 t1, finite m2 t2 =>
      roundFrac (fracNum m1 t1 * fracDen t2 - fracNum m2 t2 * fracDen t1)
        (fracDen t1 * fracDen t2)
  | finite _ _, inf => neginf
  | finite _ _, neginf => inf
  | inf, finite _ _ => inf
  | inf, inf => nan
  | inf, neginf => inf
  | neginf, finite _ _ => neginf
  | neginf, neginf => nan
  | neginf, inf => neginf

/-- IEEE binary32 addition: round the exact sum; standard special
cases. -/
def F32.add : F32 → F32 → F32
  | nan, _ => nan
  | _, nan => nan
  | finite m1 t1, finite m2 t2 =>
      roundFrac (fracNum m1 t1 * fracDen t2 + fracNum m2 t2 * fracDen t1)
        (fracDen t1 * fracDen t2)
  | finite _ _, inf => inf
  | finite _ _, neginf => neginf
  | inf, finite _ _ => inf
  | inf, inf => inf
  | inf, neginf => nan
  | neginf, finite _ _ => neginf
  | neginf, neginf => neginf
  | neginf, inf => nan

/-- IEEE binary32 multiplication: round the exact product (overflow
becomes infinity); `0 * ∞ = NaN`, signed infinity rules. -/
def F32.mul : F32 → F32 → F32
  | nan, _ => nan
  | _, nan => nan
  | finite m1 t1, finite m2 t2 =>
      roundFrac (fracNum m1 t1 * fracNum m2 t2) (fracDen t1 * fracDen t2)
  | finite m _, inf => if m = 0 then nan else if 0 < m then inf else neginf
  | finite m _, neginf => if m = 0 then nan else if 0 < m then neginf else inf
  | inf, finite m _ => if m = 0 then nan else if 0 < m then inf else neginf
  | neginf, finite m _ => if m = 0 then nan else if 0 < m then neginf else inf
  | inf, inf => inf
  | inf, neginf => neginf
  | neginf, inf => neginf
  | neginf, neginf => inf

/-- IEEE binary32 division: round the exact quotient; `finite / ∞ = 0`
(the step that zeroes the normalization factor after overflow),
division by zero gives signed infinity, `0/0` and `∞/∞` give NaN. -/
def F32.div : F32 → F32 → F32
  | nan, _ => nan
  | _, nan => nan
  | finite m1 t1, finite m2 t2 =>
      if m2 = 0 then (if m1 = 0 then nan else if 0 < m1 then inf else neginf)
      else
        let p := fracNum m1 t1 * fracDen t2
        let q := fracNum m2 t2 * fracDen t1
        if 0 < q then roundFrac p q else roundFrac (-p) (-q)
  | finite _ _, inf => finite 0 0
  | finite _ _, neginf => finite 0 0
  | inf, finite m _ => if 0 ≤ m then inf else neginf
  | neginf, finite m _ => if 0 ≤ m then neginf else inf
  | inf, inf => nan
  | inf, neginf => nan
  | neginf, inf => nan
  | neginf, neginf => nan

/-- Round half to even over the reals (mirror of `rndHalfEvenPos`, for
the square root's irrational exact value). -/
noncomputable def rndHalfEvenR (x : ℝ) : ℤ :=
  let f := ⌊x⌋
  if x - f < 1 / 2 then f
  else if (1 : ℝ) / 2 < x - f then f + 1
  else if f % 2 = 0 then f else f + 1

/-- Binade exponent over the reals (mirror of `f32expF`). -/
noncomputable def f32expR (x : ℝ) : ℤ :=
  (List.range 254).foldl
    (fun acc k => if (2 : ℝ) ^ ((k : ℤ) - 126) ≤ x then (k : ℤ) - 126 else acc)
    (-126)

/-- Round a positive real to binary32 (mirror of `roundFracPos`). -/
noncomputable def roundRealPos (x : ℝ) : F32 :=
  if (2 : ℝ) ^ (128 : ℤ) ≤ x then F32.inf
  else
    let e := f32expR x
    let t := e - 23
    mkFinite (rndHalfEvenR (x / (2 : ℝ) ^ t)) t

/-- IEEE binary32 square root: correctly rounded real square root on
positive finite values; `sqrt ∞ = ∞`, negative arguments give NaN. -/
noncomputable def F32.sqrt : F32 → F32
  | nan => nan
  | neginf => nan
  | inf => inf
  | finite m t =>
      if m < 0 then nan
      else if m = 0 then finite 0 0
      else roundRealPos (Real.sqrt ((m : ℝ) * (2 : ℝ) ^ t))

instance : Sub F32 := ⟨F32.sub⟩

/-- The exact rational value of a finite float. -/
def F32.toQ : F32 → Option ℚ
  | finite m t => some ((m : ℚ) * (2 : ℚ) ^ t)
  | _ => none

/-- The position expression of `create_instances` under f32 semantics:
`Vector3 { x: x as f32, y: 0.0, z: z as f32 } - instance_displacement`
with IEEE binary32 casts and subtraction. -/
def position32 (instance_displacement : Vec3 F32) (z x : ℕ) : Vec3 F32 :=
  (⟨F32.ofNat x, F32.finite 0 0, F32.ofNat z⟩ : Vec3 F32) - instance_displacement

/-- `cgmath` `Vector3::dot` under f32 semantics (left-associated
`x*x + y*y + z*z`). -/
def dot32 (a b : Vec3 F32) : F32 :=
  F32.add (F32.add (F32.mul a.x b.x) (F32.mul a.y b.y)) (F32.mul a.z b.z)

/-- `InnerSpace::magnitude` under f32 semantics. -/
noncomputable def magnitude32 (v : Vec3 F32) : F32 := F32.sqrt (dot32 v v)

/-- `InnerSpace::normalize` = `self * (1.0 / magnitude)` under f32
semantics — the axis the generator's else-branch passes to
`from_axis_angle`. -/
noncomputable def normalize32 (v : Vec3 F32) : Vec3 F32 :=
  let factor := F32.div F32.one (magnitude32 v)
  ⟨F32.mul v.x factor, F32.mul v.y factor, F32.mul v.z factor⟩

theorem length_flatMap_range {α : Type} (k m : ℕ) (f : ℕ → List α)
    (h : ∀ i, (f i).length = m) :
    ((List.range k).flatMap f).length = k * m := by
  induction k with
  | zero => simp
  | succ k ih =>
    rw [List.range_succ, List.flatMap_append, List.length_append, ih]
    simp [h, Nat.succ_mul]

theorem getElem?_flatMap_range {α : Type} (k m z x : ℕ) (f : ℕ → List α)
    (h : ∀ i, (f i).length = m) (hz : z < k) (hx : x < m) :
    ((List.range k).flatMap f)[z * m + x]? = (f z)[x]? := by
  induction k with
  | zero => omega
  | succ k ih =>
    rw [List.range_succ, List.flatMap_append]
    have hlen : ((List.range k).flatMap f).length = k * m :=
      length_flatMap_range k m f h
    rcases Nat.lt_or_ge z k with hzk | hzk
    · have hik : z * m + x < k * m := by
        have h1 : z * m + x < (z + 1) * m := by
          rw [Nat.succ_mul]; omega
        have h2 : (z + 1) * m ≤ k * m := Nat.mul_le_mul_right m hzk
        omega
      rw [List.getElem?_append, if_pos (by omega), ih hzk]
    · have hz' : z = k := by omega
      subst hz'
      rw [List.getElem?_append_right (by omega), hlen]
      simp

theorem create_instances_length (n : ℕ) (d : Vec3 ℚ) :
    (create_instances n d).length = n * n := by
  rw [create_instances_eq]
  exact length_flatMap_range n n _ (fun i => by simp)

theorem create_instances_getElem (n : ℕ) (d : Vec3 ℚ) (z x : ℕ)
    (hz : z < n) (hx : x < n) :
    (create_instances n d)[z * n + x]? = some (instanceAt d z x) := by
  rw [create_instances_eq,
    getElem?_flatMap_range n n z x _ (fun i => by simp) hz hx,
    List.getElem?_map, List.getElem?_range hx]
  rfl

theorem mem_create_instances {inst : Instance} {n : ℕ} {d : Vec3 ℚ} :
    inst ∈ create_instances n d ↔
      ∃ z x, z < n ∧ x < n ∧ inst = instanceAt d z x := by
  rw [create_instances_eq]
  simp only [List.mem_flatMap, List.mem_map, List.mem_range]
  constructor
  · rintro ⟨z, hz, x, hx, rfl⟩
    exact ⟨z, x, hz, hx, rfl⟩
  · rintro ⟨z, x, hz, hx, rfl⟩
    exact ⟨z, hz, x, hx, rfl⟩

theorem instanceAt_position (d : Vec3 ℚ) (z x : ℕ) :
    (instanceAt d z x).position = ⟨(x : ℚ), 0, (z : ℚ)⟩ - d := rfl

theorem instanceAt_rotation (d : Vec3 ℚ) (z x : ℕ) :
    (instanceAt d z x).rotation =
      if (instanceAt d z x).position = ⟨0, 0, 0⟩ then
        Quaternion.fromAxisAngle Vec3.unit_z 0
      else
        Quaternion.fromAxisAngle (Vec3.normalize (instanceAt d z x).position.toR) 45 := rfl

/-- Squared Euclidean norm of a real 3-vector. -/
def Vec3.normSq (v : Vec3 ℝ) : ℝ := v.x ^ 2 + v.y ^ 2 + v.z ^ 2

/-- Squared norm of a quaternion (`s² + ‖v‖²`). -/
def Quaternion.normSq (q : Quaternion) : ℝ := q.s ^ 2 + q.v.normSq

theorem Vec3.normSq_eq_zero_iff (v : Vec3 ℝ) :
    v.normSq = 0 ↔ v = ⟨0, 0, 0⟩ := by
  cases v with
  | mk a b c =>
    simp only [Vec3.normSq, Vec3.mk.injEq]
    constructor
    · intro h
      have ha : a = 0 := by nlinarith [sq_nonneg a, sq_nonneg b, sq_nonneg c]
      have hb : b = 0 := by nlinarith [sq_nonneg a, sq_nonneg b, sq_nonneg c]
      have hc : c = 0 := by nlinarith [sq_nonneg a, sq_nonneg b, sq_nonneg c]
      exact ⟨ha, hb, hc⟩
    · rintro ⟨ha, hb, hc⟩
      rw [ha, hb, hc]
      ring

theorem Vec3.normSq_pos (v : Vec3 ℝ) (h : v ≠ ⟨0, 0, 0⟩) : 0 < v.normSq := by
  have hnn : (0 : ℝ) ≤ v.normSq := by
    rw [Vec3.normSq]
    positivity
  rcases lt_or_eq_of_le hnn with hlt | heq
  · exact hlt
  · exact absurd ((Vec3.normSq_eq_zero_iff v).mp heq.symm) h

theorem Vec3.dot_self_eq_normSq (v : Vec3 ℝ) : v.dot v = v.normSq := by
  simp [Vec3.dot, Vec3.normSq]; ring

theorem Vec3.normSq_smul (r : ℝ) (v : Vec3 ℝ) :
    (Vec3.smul r v).normSq = r ^ 2 * v.normSq := by
  simp [Vec3.smul, Vec3.normSq]; ring

theorem Vec3.normalize_normSq (v : Vec3 ℝ) (h : v ≠ ⟨0, 0, 0⟩) :
    (Vec3.normalize v).normSq = 1 := by
  have hpos : 0 < v.normSq := Vec3.normSq_pos v h
  have hsq : Real.sqrt v.normSq ^ 2 = v.normSq := Real.sq_sqrt hpos.le
  have hsnz : Real.sqrt v.normSq ≠ 0 :=
    ne_of_gt (Real.sqrt_pos.mpr hpos)
  rw [Vec3.normalize, Vec3.magnitude, Vec3.dot_self_eq_normSq, Vec3.normSq_smul,
    one_div, inv_pow, hsq]
  exact inv_mul_cancel₀ (ne_of_gt hpos)

theorem Vec3.toR_eq_zero_iff (v : Vec3 ℚ) :
    v.toR = ⟨0, 0, 0⟩ ↔ v = ⟨0, 0, 0⟩ := by
  cases v with
  | mk a b c => simp [Vec3.toR, Vec3.mk.injEq]

theorem Vec3.unit_z_normSq : Vec3.unit_z.normSq = 1 := by
  simp [Vec3.unit_z, Vec3.normSq]

theorem Quaternion.fromAxisAngle_normSq (axis : Vec3 ℝ) (d : ℚ)
    (h : axis.normSq = 1) :
    (Quaternion.fromAxisAngle axis d).normSq = 1 := by
  rw [Quaternion.fromAxisAngle, Quaternion.normSq, Vec3.normSq_smul]
  simp only [h, mul_one]
  rw [add_comm]
  exact Real.sin_sq_add_cos_sq (degToRad d / 2)

theorem fromAxisAngle_unit_z_zero :
    Quaternion.fromAxisAngle Vec3.unit_z 0 = ⟨1, ⟨0, 0, 0⟩⟩ := by
  have h0 : degToRad 0 = 0 := by simp [degToRad]
  simp [Quaternion.fromAxisAngle, h0, Vec3.smul, Vec3.unit_z]

theorem instanceAt_rotation_of_zero (d : Vec3 ℚ) (z x : ℕ)
    (h : (instanceAt d z x).position = ⟨0, 0, 0⟩) :
    (instanceAt d z x).rotation = Quaternion.fromAxisAngle Vec3.unit_z 0 := by
  rw [instanceAt_rotation, if_pos h]

theorem instanceAt_rotation_of_ne_zero (d : Vec3 ℚ) (z x : ℕ)
    (h : (instanceAt d z x).position ≠ ⟨0, 0, 0⟩) :
    (instanceAt d z x).rotation =
      Quaternion.fromAxisAngle (Vec3.normalize (instanceAt d z x).position.toR) 45 := by
  rw [instanceAt_rotation, if_neg h]

theorem singleton_create_instances (d : Vec3 ℚ) :
    create_instances 1 d = [instanceAt d 0 0] := rfl

/-- C1: for every grid size `n` and displacement `d`, `create_instances`
returns exactly `n²` instances in row-major order (`z` outer, `x`
inner): the instance at index `z*n + x` has position `(x, 0, z) − d`;
for `n = 0` the instance list and the encoded buffer are both empty. -/
theorem c1_generate_row_major (n : ℕ) (d : Vec3 ℚ) :
    (create_instances n d).length = n * n ∧
    (∀ z x : ℕ, z < n → x < n →
      ((create_instances n d)[z * n + x]?).map Instance.position =
        some (⟨(x : ℚ), 0, (z : ℚ)⟩ - d)) ∧
    create_instances 0 d = [] ∧
    create_instance_buffer_floats (create_instances 0 d) = [] := by
  refine ⟨create_instances_length n d, ?_, rfl, rfl⟩
  intro z x hz hx
  rw [create_instances_getElem n d z x hz hx]
  simp [instanceAt_position]

/-- Witness for C1 at `n = 2`, `d = 0`, index `1*2 + 1`. -/
theorem c1_witness :
    ((create_instances 2 ⟨0, 0, 0⟩)[1 * 2 + 1]?).map Instance.position =
      some (⟨((1 : ℕ) : ℚ), 0, ((1 : ℕ) : ℚ)⟩ - ⟨0, 0, 0⟩) :=
  (c1_generate_row_major 2 ⟨0, 0, 0⟩).2.1 1 1 (by omega) (by omega)

/-- C2: every generated instance whose position is exactly the zero
vector has the identity rotation: the 0° quaternion about the fixed
`unit_z` axis, which equals the identity quaternion `(1, (0,0,0))` (so
it is not obtained by normalizing the zero vector). -/
theorem c2_zero_position_identity_rotation (n : ℕ) (d : Vec3 ℚ) (inst : Instance)
    (hmem : inst ∈ create_instances n d) (hpos : inst.position = ⟨0, 0, 0⟩) :
    inst.rotation = Quaternion.fromAxisAngle Vec3.unit_z 0 ∧
    Quaternion.fromAxisAngle Vec3.unit_z 0 = ⟨1, ⟨0, 0, 0⟩⟩ := by
  obtain ⟨z, x, hz, hx, rfl⟩ := mem_create_instances.mp hmem
  exact ⟨instanceAt_rotation_of_zero d z x hpos, fromAxisAngle_unit_z_zero⟩

/-- Witness for C2 at `n = 1`, `d = 0` (single instance at the origin). -/
theorem c2_witness :
    (instanceAt ⟨0, 0, 0⟩ 0 0).rotation = Quaternion.fromAxisAngle Vec3.unit_z 0 ∧
    Quaternion.fromAxisAngle Vec3.unit_z 0 = ⟨1, ⟨0, 0, 0⟩⟩ :=
  c2_zero_position_identity_rotation 1 ⟨0, 0, 0⟩ (instanceAt ⟨0, 0, 0⟩ 0 0)
    (by rw [singleton_create_instances]
        exact List.mem_singleton.mpr rfl)
    (by simp [instanceAt, Vec3.sub_def])

/-- C3: every generated instance whose position is non-zero has
rotation `from_axis_angle(normalize(position), 45°)`: the fixed 45°
angle about the normalized position, for every such instance. -/
theorem c3_nonzero_position_rotation_45 (n : ℕ) (d : Vec3 ℚ) (inst : Instance)
    (hmem : inst ∈ create_instances n d) (hpos : inst.position ≠ ⟨0, 0, 0⟩) :
    inst.rotation = Quaternion.fromAxisAngle (Vec3.normalize inst.position.toR) 45 := by
  obtain ⟨z, x, hz, hx, rfl⟩ := mem_create_instances.mp hmem
  exact instanceAt_rotation_of_ne_zero d z x hpos

/-- Witness for C3 at `n = 1`, `d = (1,0,0)` (instance at `(-1,0,0)`). -/
theorem c3_witness :
    (instanceAt ⟨1, 0, 0⟩ 0 0).rotation =
      Quaternion.fromAxisAngle
        (Vec3.normalize (instanceAt ⟨1, 0, 0⟩ 0 0).position.toR) 45 :=
  c3_nonzero_position_rotation_45 1 ⟨1, 0, 0⟩ (instanceAt ⟨1, 0, 0⟩ 0 0)
    (by rw [singleton_create_instances]
        exact List.mem_singleton.mpr rfl)
    (by simp [instanceAt, Vec3.sub_def])

theorem create_instance_buffer_floats_length (l : List Instance) :
    (create_instance_buffer_floats l).length = 16 * l.length := by
  induction l with
  | nil => rfl
  | cons a t ih =>
    rw [create_instance_buffer_floats] at ih ⊢
    rw [List.map_cons, List.flatMap_cons, List.length_append, ih]
    simp [InstanceRaw.floats, List.length_cons]
    ring

/-- C4: `to_raw` encodes an instance as the 4×4 homogeneous matrix
`translation(position) * rotation_matrix(rotation)`, stored as the 16
floats of the four columns in order (column-major), occupying
`16 × 4 = 64` contiguous bytes with no padding. -/
theorem c4_to_raw_encoding (inst : Instance) :
    inst.to_raw.model =
      Mat4.mul (Mat4.from_translation inst.position.toR) (Mat4.fromQuat inst.rotation) ∧
    inst.to_raw.floats =
      [inst.to_raw.model.c0.x, inst.to_raw.model.c0.y,
       inst.to_raw.model.c0.z, inst.to_raw.model.c0.w,
       inst.to_raw.model.c1.x, inst.to_raw.model.c1.y,
       inst.to_raw.model.c1.z, inst.to_raw.model.c1.w,
       inst.to_raw.model.c2.x, inst.to_raw.model.c2.y,
       inst.to_raw.model.c2.z, inst.to_raw.model.c2.w,
       inst.to_raw.model.c3.x, inst.to_raw.model.c3.y,
       inst.to_raw.model.c3.z, inst.to_raw.model.c3.w] ∧
    inst.to_raw.floats.length = 16 ∧
    inst.to_raw.byteSize = 64 :=
  ⟨rfl, rfl, rfl, rfl⟩

/-- C5: the first three components of the fourth (translation) column
of the encoded matrix recover the instance's position exactly, and the
encoded buffer of `count` instances is exactly `64 * count` bytes. -/
theorem c5_roundtrip (inst : Instance) (instances : List Instance) :
    inst.to_raw.model.c3.x = (inst.position.x : ℝ) ∧
    inst.to_raw.model.c3.y = (inst.position.y : ℝ) ∧
    inst.to_raw.model.c3.z = (inst.position.z : ℝ) ∧
    inst.to_raw.model.c3.w = 1 ∧
    create_instance_buffer_byteLen instances = 64 * instances.length := by
  refine ⟨?_, ?_, ?_, ?_, ?_⟩
  · simp [Instance.to_raw, Mat4.mul, Mat4.mulVec, Mat4.fromQuat,
      Mat4.from_translation, Vec3.toR]
  · simp [Instance.to_raw, Mat4.mul, Mat4.mulVec, Mat4.fromQuat,
      Mat4.from_translation, Vec3.toR]
  · simp [Instance.to_raw, Mat4.mul, Mat4.mulVec, Mat4.fromQuat,
      Mat4.from_translation, Vec3.toR]
  · simp [Instance.to_raw, Mat4.mul, Mat4.mulVec, Mat4.fromQuat,
      Mat4.from_translation, Vec3.toR]
  · rw [create_instance_buffer_byteLen, create_instance_buffer_floats_length,
      FLOAT_BYTES]
    ring

set_option maxRecDepth 10000 in
/-- C6 counterexample (to the claim as stated, over the f32
refinement): at grid size 1 with displacement `(−2^127, 0, 0)` the
instance's f32 position is `(2^127, 0, 0)` — not the zero vector, so
the generator takes the else branch — yet the f32 squared magnitude
overflows to infinity, `1.0 / ∞ = 0`, and `normalize` returns the zero
vector: `from_axis_angle` is invoked with a zero-length axis, which
the claim says never happens. -/
theorem c6_counterexample :
    position32 ⟨(F32.ofNat (2 ^ 127)).negate, F32.finite 0 0, F32.finite 0 0⟩ 0 0 ≠
      ⟨F32.finite 0 0, F32.finite 0 0, F32.finite 0 0⟩ ∧
    normalize32
        (position32 ⟨(F32.ofNat (2 ^ 127)).negate, F32.finite 0 0, F32.finite 0 0⟩ 0 0) =
      ⟨F32.finite 0 0, F32.finite 0 0, F32.finite 0 0⟩ := by
  exact ⟨by decide, by decide⟩

/-- C6 (amended): in the exact-arithmetic model of the generator —
i.e. whenever the squared magnitude of a non-zero position neither
overflows nor underflows f32 — every generated instance's rotation is
a unit quaternion (squared norm 1), built by `from_axis_angle` from an
axis of unit length, never from a zero-length axis; under f32 overflow
the axis degenerates to zero (see the counterexample). -/
theorem c6_rotation_unit_quaternion (n : ℕ) (d : Vec3 ℚ) (inst : Instance)
    (hmem : inst ∈ create_instances n d) :
    inst.rotation.normSq = 1 ∧
    ∃ axis deg, inst.rotation = Quaternion.fromAxisAngle axis deg ∧
      axis.normSq = 1 ∧ axis ≠ ⟨0, 0, 0⟩ := by
  obtain ⟨z, x, hz, hx, rfl⟩ := mem_create_instances.mp hmem
  by_cases hpos : (instanceAt d z x).position = ⟨0, 0, 0⟩
  · rw [instanceAt_rotation_of_zero d z x hpos]
    refine ⟨Quaternion.fromAxisAngle_normSq _ _ Vec3.unit_z_normSq,
      Vec3.unit_z, 0, rfl, Vec3.unit_z_normSq, ?_⟩
    intro hc
    have : (1 : ℝ) = 0 := congrArg Vec3.z hc
    norm_num at this
  · rw [instanceAt_rotation_of_ne_zero d z x hpos]
    have haxis : (Vec3.normalize (instanceAt d z x).position.toR).normSq = 1 :=
      Vec3.normalize_normSq _ (fun hc => hpos ((Vec3.toR_eq_zero_iff _).mp hc))
    refine ⟨Quaternion.fromAxisAngle_normSq _ _ haxis, _, 45, rfl, haxis, ?_⟩
    intro hc
    rw [hc] at haxis
    simp [Vec3.normSq] at haxis

/-- Witness for C6 at `n = 1`, `d = 0`. -/
theorem c6_witness :
    (instanceAt ⟨0, 0, 0⟩ 0 0).rotation.normSq = 1 ∧
    ∃ axis deg, (instanceAt ⟨0, 0, 0⟩ 0 0).rotation =
        Quaternion.fromAxisAngle axis deg ∧
      axis.normSq = 1 ∧ axis ≠ ⟨0, 0, 0⟩ :=
  c6_rotation_unit_quaternion 1 ⟨0, 0, 0⟩ (instanceAt ⟨0, 0, 0⟩ 0 0)
    (by rw [singleton_create_instances]
        exact List.mem_singleton.mpr rfl)

/-- C7 counterexample: the default construction
(`count_per_row = 0`, zero displacement) does not yield exactly one
instance — it yields none at all, so the claimed single origin instance
does not exist. -/
theorem c7_counterexample :
    default_instances.length = 0 ∧ default_instances.length ≠ 1 :=
  ⟨rfl, by simp [show default_instances.length = 0 from rfl]⟩

/-- C7 (amended): the default construction — `count_per_row = 0` with
zero displacement — yields an empty instance set (no instances, no
grid) and an empty encoded buffer. -/
theorem c7_default_empty :
    default_instances = [] ∧
    create_instance_buffer_floats default_instances = [] :=
  ⟨rfl, rfl⟩

/-- C8: the grid preset — `count_per_row = 10` with the named
displacement constant `(10 * 0.5, 0, 10 * 0.5) = (5, 0, 5)` — produces
100 instances, and the one at index `5*10 + 5` (grid cell `x = 5`,
`z = 5`, the grid's center) has exactly-zero position and the identity
rotation. -/
theorem c8_grid_preset :
    DEFAULT_INSTANCES_PER_ROW = 10 ∧
    FANCY_MULTI_INSTANCE_DISPLACEMENT = ⟨5, 0, 5⟩ ∧
    (create_instances 10 FANCY_MULTI_INSTANCE_DISPLACEMENT).length = 100 ∧
    ((create_instances 10 FANCY_MULTI_INSTANCE_DISPLACEMENT)[5 * 10 + 5]?).map
      Instance.position = some ⟨0, 0, 0⟩ ∧
    ((create_instances 10 FANCY_MULTI_INSTANCE_DISPLACEMENT)[5 * 10 + 5]?).map
      Instance.rotation = some (Quaternion.fromAxisAngle Vec3.unit_z 0) ∧
    Quaternion.fromAxisAngle Vec3.unit_z 0 = ⟨1, ⟨0, 0, 0⟩⟩ := by
  have hF : FANCY_MULTI_INSTANCE_DISPLACEMENT = ⟨5, 0, 5⟩ := by
    rw [FANCY_MULTI_INSTANCE_DISPLACEMENT, DEFAULT_INSTANCES_PER_ROW]
    norm_num
  have hget := create_instances_getElem 10 FANCY_MULTI_INSTANCE_DISPLACEMENT
    5 5 (by omega) (by omega)
  have hpos : (instanceAt FANCY_MULTI_INSTANCE_DISPLACEMENT 5 5).position =
      ⟨0, 0, 0⟩ := by
    rw [instanceAt_position, hF, Vec3.sub_def]
    norm_num
  refine ⟨rfl, hF, ?_, ?_, ?_, fromAxisAngle_unit_z_zero⟩
  · rw [create_instances_length]
  · rw [hget]
    exact congrArg some hpos
  · rw [hget]
    exact congrArg some (instanceAt_rotation_of_zero _ 5 5 hpos)

/-- C9: `create_instances` is deterministic — it is a pure function of
its two arguments, so two calls with identical grid size and
displacement produce identical instance lists and identical encoded
buffers. -/
theorem c9_deterministic (n₁ n₂ : ℕ) (d₁ d₂ : Vec3 ℚ)
    (hn : n₁ = n₂) (hd : d₁ = d₂) :
    create_instances n₁ d₁ = create_instances n₂ d₂ ∧
    create_instance_buffer_floats (create_instances n₁ d₁) =
      create_instance_buffer_floats (create_instances n₂ d₂) := by
  subst hn
  subst hd
  exact ⟨rfl, rfl⟩

/-- Witness for C9 at `n = 2`, `d = (1,0,0)`. -/
theorem c9_witness :
    create_instances 2 ⟨1, 0, 0⟩ = create_instances 2 ⟨1, 0, 0⟩ ∧
    create_instance_buffer_floats (create_instances 2 ⟨1, 0, 0⟩) =
      create_instance_buffer_floats (create_instances 2 ⟨1, 0, 0⟩) :=
  c9_deterministic 2 2 ⟨1, 0, 0⟩ ⟨1, 0, 0⟩ rfl rfl

theorem create_instances_getElem_idx (n : ℕ) (d : Vec3 ℚ) (i : ℕ)
    (hi : i < n * n) :
    (create_instances n d)[i]? = some (instanceAt d (i / n) (i % n)) := by
  have hn0 : 0 < n := by
    rcases Nat.eq_zero_or_pos n with h | h
    · subst h; simp at hi
    · exact h
  have h1 : i / n < n := (Nat.div_lt_iff_lt_mul hn0).mpr hi
  have h2 : i % n < n := Nat.mod_lt _ hn0
  have hidx : i / n * n + i % n = i := by
    rw [mul_comm]
    exact Nat.div_add_mod i n
  have hget := create_instances_getElem n d (i / n) (i % n) h1 h2
  rwa [hidx] at hget

theorem instanceAt_position_inj (d : Vec3 ℚ) {z1 x1 z2 x2 : ℕ}
    (h : (instanceAt d z1 x1).position = (instanceAt d z2 x2).position) :
    z1 = z2 ∧ x1 = x2 := by
  rw [instanceAt_position, instanceAt_position, Vec3.sub_def, Vec3.sub_def] at h
  have hx := congrArg Vec3.x h
  have hz := congrArg Vec3.z h
  simp only [sub_left_inj, Nat.cast_inj] at hx hz
  exact ⟨hz, hx⟩

set_option maxRecDepth 10000 in
/-- C10 counterexample (to the claim as stated, over the f32
refinement): in a 2×2 grid with displacement `(2^27, 0, 0)` the two
distinct cells `(z = 0, x = 0)` and `(z = 0, x = 1)` get identical f32
positions, because `fl(0 − 2^27)` and `fl(1 − 2^27)` both round to
`−2^27` (canonically `−2^23 · 2^4`): the generated positions are not
pairwise distinct in the program. -/
theorem c10_counterexample :
    (0 : ℕ) ≠ (1 : ℕ) ∧
    position32 ⟨F32.ofNat (2 ^ 27), F32.finite 0 0, F32.finite 0 0⟩ 0 0 =
      position32 ⟨F32.ofNat (2 ^ 27), F32.finite 0 0, F32.finite 0 0⟩ 0 1 ∧
    (position32 ⟨F32.ofNat (2 ^ 27), F32.finite 0 0, F32.finite 0 0⟩ 0 0).x.toQ =
      some (-(2 ^ 27)) := by
  refine ⟨by decide, by decide, ?_⟩
  have h : (position32 ⟨F32.ofNat (2 ^ 27), F32.finite 0 0, F32.finite 0 0⟩ 0 0).x =
      F32.finite (-(8388608 : ℤ)) 4 := by decide
  rw [h, F32.toQ]
  norm_num

/-- C10 (amended, implicit): in the exact-arithmetic model — i.e.
whenever the f32 subtractions `(x, 0, z) − displacement` incur no
rounding — the `n²` generated positions are pairwise distinct, so at
most one instance per call takes the degenerate zero-position branch;
a zero-position instance exists exactly when the displacement is
`(x, 0, z)` for some naturals `x, z < n`. Under f32 rounding distinct
cells can collide (see the counterexample). -/
theorem c10_distinct_positions (n : ℕ) (d : Vec3 ℚ) :
    (∀ i j : ℕ, i < n * n → j < n * n → i ≠ j →
      ((create_instances n d)[i]?).map Instance.position ≠
        ((create_instances n d)[j]?).map Instance.position) ∧
    (∀ i j : ℕ, i < n * n → j < n * n →
      ((create_instances n d)[i]?).map Instance.position = some ⟨0, 0, 0⟩ →
      ((create_instances n d)[j]?).map Instance.position = some ⟨0, 0, 0⟩ →
      i = j) ∧
    ((∃ inst ∈ create_instances n d, inst.position = ⟨0, 0, 0⟩) ↔
      ∃ x z : ℕ, x < n ∧ z < n ∧ d = ⟨(x : ℚ), 0, (z : ℚ)⟩) := by
  have hdist : ∀ i j : ℕ, i < n * n → j < n * n → i ≠ j →
      ((create_instances n d)[i]?).map Instance.position ≠
        ((create_instances n d)[j]?).map Instance.position := by
    intro i j hi hj hij hEq
    rw [create_instances_getElem_idx n d i hi,
      create_instances_getElem_idx n d j hj] at hEq
    have hpos : (instanceAt d (i / n) (i % n)).position =
        (instanceAt d (j / n) (j % n)).position := by
      simpa using hEq
    obtain ⟨hdiv, hmod⟩ := instanceAt_position_inj d hpos
    apply hij
    have hi' := Nat.div_add_mod i n
    have hj' := Nat.div_add_mod j n
    rw [← hi', ← hj', hdiv, hmod]
  refine ⟨hdist, ?_, ?_⟩
  · intro i j hi hj h0i h0j
    by_contra hne
    exact hdist i j hi hj hne (h0i.trans h0j.symm)
  · constructor
    · rintro ⟨inst, hmem, hzero⟩
      obtain ⟨z, x, hz, hx, rfl⟩ := mem_create_instances.mp hmem
      rw [instanceAt_position, Vec3.sub_def] at hzero
      have h1 := congrArg Vec3.x hzero
      have h2 := congrArg Vec3.y hzero
      have h3 := congrArg Vec3.z hzero
      simp only [sub_eq_zero, zero_sub, neg_eq_zero] at h1 h2 h3
      refine ⟨x, z, hx, hz, ?_⟩
      cases d with
      | mk a b c => simp_all
    · rintro ⟨x, z, hx, hz, rfl⟩
      refine ⟨instanceAt ⟨(x : ℚ), 0, (z : ℚ)⟩ z x,
        mem_create_instances.mpr ⟨z, x, hz, hx, rfl⟩, ?_⟩
      rw [instanceAt_position, Vec3.sub_def]
      simp

/-- Witness for C10 at `n = 2`, `d = (1,0,0)`, indices 0 and 1. -/
theorem c10_witness :
    ((create_instances 2 ⟨1, 0, 0⟩)[0]?).map Instance.position ≠
      ((create_instances 2 ⟨1, 0, 0⟩)[1]?).map Instance.position :=
  (c10_distinct_positions 2 ⟨1, 0, 0⟩).1 0 1 (by omega) (by omega) (by omega)

end WAF
